import Mathlib

deriving instance DecidableEq for Except

set_option maxRecDepth 10000

/-!
Verification of the workspace-launcher orchestration core (src/workspace.py).

The Python source is shallowly embedded.  Python strings are modelled as
`String` / `List Char`; Python `int` as `ℤ`; Python `float` arithmetic is
modelled over `ℚ`, with every floating-point operation routed through an
explicit rounding parameter `fl : ℚ → ℚ`:
  * `fl := id` gives exact-real semantics (every float operation modelled as
    exact; valid whenever all intermediate values are representable), and
  * `fl := roundFloat` gives IEEE-754 binary64 round-to-nearest-even
    semantics for the normal range (no overflow/subnormals, which the
    monitor geometry values never reach).
Python exceptions are modelled with `Except String`; the string is a
human-readable tag for the exception and carries no semantic weight beyond
distinguishing messages that the source itself builds into labels.
-/

namespace Workspace

/-! ### Python string primitives -/

/-- Python `str.split()` (no separator): split on runs of whitespace,
dropping empty pieces.  Char-list worker. -/
def pySplitWsAux : List Char → List Char → List (List Char)
  | [], acc => if acc.isEmpty then [] else [acc.reverse]
  | c :: cs, acc =>
    if c.isWhitespace then
      if acc.isEmpty then pySplitWsAux cs [] else acc.reverse :: pySplitWsAux cs []
    else pySplitWsAux cs (c :: acc)

/-- Python `s.split()` with no argument. -/
def pySplitWs (s : String) : List String :=
  (pySplitWsAux s.data []).map String.mk

/-- Python `s.split(sep)` for a one-character separator `sep`: keeps empty
pieces, always returns at least one piece.  Char-list worker. -/
def pySplitCharAux (sep : Char) : List Char → List Char → List (List Char)
  | [], acc => [acc.reverse]
  | c :: cs, acc =>
    if c = sep then acc.reverse :: pySplitCharAux sep cs []
    else pySplitCharAux sep cs (c :: acc)

/-- Python `s.split(sep)` for a one-character separator. -/
def pySplitChar (sep : Char) (s : String) : List String :=
  (pySplitCharAux sep s.data []).map String.mk

/-- Python `s.strip()`: remove leading and trailing whitespace. -/
def pyStripL (cs : List Char) : List Char :=
  ((cs.dropWhile Char.isWhitespace).reverse.dropWhile Char.isWhitespace).reverse

/-- Python `s.rstrip(ch)` for a single character: drop trailing copies of `ch`. -/
def pyRstripCharL (ch : Char) (cs : List Char) : List Char :=
  (cs.reverse.dropWhile (· = ch)).reverse

/-- Value of a digit list (most significant first); meaningful when all
characters are decimal digits. -/
def digitsVal (cs : List Char) : ℕ :=
  cs.foldl (fun n c => 10 * n + (c.toNat - '0'.toNat)) 0

/-- All characters are decimal digits and there is at least one. -/
def isDigits (cs : List Char) : Bool :=
  !cs.isEmpty && cs.all (fun c => '0' ≤ c && c ≤ '9')

/-- Python `int(s)`: optional surrounding whitespace, optional sign, then a
non-empty digit string.  (Underscore digit grouping is not modelled.)
Returns `none` where Python raises `ValueError`. -/
def pyParseInt (cs : List Char) : Option ℤ :=
  match pyStripL cs with
  | '-' :: rest => if isDigits rest then some (-(digitsVal rest : ℤ)) else none
  | '+' :: rest => if isDigits rest then some (digitsVal rest : ℤ) else none
  | rest => if isDigits rest then some (digitsVal rest : ℤ) else none

/-- Python `float(s)` restricted to plain decimal literals
`[sign] digits [ . digits ]` / `[sign] . digits`, the only shapes the
geometry grammar feeds it.  The decimal value is returned exactly (the
callers apply the rounding parameter).  `none` models `ValueError`. -/
def pyParseFloat (cs : List Char) : Option ℚ :=
  let core : List Char → Option ℚ := fun body =>
    match pySplitCharAux '.' body [] with
    | [ip] => if isDigits ip then some (digitsVal ip : ℚ) else none
    | [ip, fp] =>
      if (ip.isEmpty || isDigits ip) && (fp.isEmpty || isDigits fp)
          && !(ip.isEmpty && fp.isEmpty) then
        some ((digitsVal ip : ℚ) + (digitsVal fp : ℚ) / (10 : ℚ) ^ fp.length)
      else none
    | _ => none
  match pyStripL cs with
  | '-' :: rest => (core rest).map Neg.neg
  | '+' :: rest => core rest
  | rest => core rest

/-- Python `Fraction(s)` for the `numerator/denominator` shape (the only one
the geometry grammar reaches, since it is tried only when `'/'` occurs in the
token): optional surrounding whitespace, optional sign, digits, `'/'`,
digits.  `none` covers both `ValueError` and the `ZeroDivisionError` raised
by a zero denominator. -/
def pyParseFraction (cs : List Char) : Option ℚ :=
  let core : List Char → Option ℚ := fun body =>
    match pySplitCharAux '/' body [] with
    | [np, dp] =>
      if isDigits np && isDigits dp && digitsVal dp ≠ 0 then
        some ((digitsVal np : ℚ) / (digitsVal dp : ℚ))
      else none
    | _ => none
  match pyStripL cs with
  | '-' :: rest => (core rest).map Neg.neg
  | '+' :: rest => core rest
  | rest => core rest

/-- Python `int(x)` applied to a real value: truncation toward zero. -/
def pytrunc (q : ℚ) : ℤ :=
  if 0 ≤ q then ⌊q⌋ else ⌈q⌉

/-! ### Binary64 rounding model -/

/-- Round a rational to the nearest integer, ties to even. -/
def roundTiesEven (q : ℚ) : ℤ :=
  let f : ℤ := ⌊q⌋
  let r : ℚ := q - (f : ℚ)
  if r < 1 / 2 then f
  else if 1 / 2 < r then f + 1
  else if 2 ∣ f then f else f + 1

/-- Floor of the base-2 logarithm of a positive natural, by fuel-bounded
halving (kernel-reducible, unlike `Nat.log2`). -/
def natLog2F : ℕ → ℕ → ℕ
  | 0, _ => 0
  | fuel + 1, n => if n ≤ 1 then 0 else natLog2F fuel (n / 2) + 1

/-- `⌊log₂ n⌋` for `n ≥ 1` (and `0` for `n ≤ 1`). -/
def natLog2 (n : ℕ) : ℕ :=
  natLog2F n n

/-- Whether `2 ^ L ≤ a`, for a positive rational `a`, without `zpow`. -/
def twoZPowLe (L : ℤ) (a : ℚ) : Bool :=
  match L with
  | .ofNat k => (2 ^ k * (a.den : ℤ)) ≤ a.num
  | .negSucc k => (a.den : ℤ) ≤ 2 ^ (k + 1) * a.num

/-- `⌊log₂ a⌋` for a positive rational `a`: the unique `e` with
`2 ^ e ≤ a < 2 ^ (e + 1)` (garbage on `a ≤ 0`, never used there). -/
def ratLog2 (a : ℚ) : ℤ :=
  let L : ℤ := (natLog2 a.num.toNat : ℤ) - (natLog2 a.den : ℤ)
  if twoZPowLe L a then L else L - 1

/-- IEEE-754 binary64 round-to-nearest-even on the normal range (overflow
and subnormals are not modelled; all values arising from monitor geometry
stay far inside the normal range).  The significand grid has 53 bits:
numbers in `[2^e, 2^(e+1))` are rounded to multiples of `2^(e-52)`. -/
def roundFloat (q : ℚ) : ℚ :=
  if q = 0 then 0
  else
    let a : ℚ := |q|
    let e : ℤ := ratLog2 a
    let s : ℚ := 2 ^ ((52 : ℤ) - e)
    let m : ℤ := roundTiesEven (a * s)
    (if q < 0 then -(m : ℚ) else (m : ℚ)) / s

/-! ### Data model -/

/-- A monitor rectangle, from `detect_monitors` (all four fields are Python
ints parsed from the `xrandr` geometry). -/
structure Mon where
  x : ℤ
  y : ℤ
  w : ℤ
  h : ℤ
deriving DecidableEq, Repr

/-- The `MONITORS` table: an insertion-ordered string-keyed mapping. -/
def Monitors := List (String × Mon)

/-- Python `MONITORS.get(monitor, MONITORS["primary"])` (src/workspace.py
line 110).  The default argument is evaluated eagerly, so a registry without
a `"primary"` key raises `KeyError` even when `monitor` itself is present;
in particular an empty registry always raises. -/
def monGet (ms : Monitors) (name : String) : Except String Mon :=
  match List.lookup "primary" ms with
  | none => .error "KeyError: primary"
  | some prim => .ok ((List.lookup name ms).getD prim)

/-- `if not MONITORS: ... sys.exit(1)` in `main` (lines 760-762): the
`NoMonitorsDetected` guard that aborts the run before any lookup when the
registry is empty. -/
def mainMonitorsCheck (ms : Monitors) : Except String Unit :=
  match ms with
  | [] => .error "No se detectaron monitores"
  | _ :: _ => .ok ()

/-- The `SHORTCUTS` table of named positions (lines 70-88). -/
def SHORTCUTS : List (String × String) :=
  [ ("full", "tl w:100% h:100%"),
    ("left", "tl w:50% h:100%"),
    ("right", "tr w:50% h:100%"),
    ("top", "tl w:100% h:50%"),
    ("bottom", "bl w:100% h:50%"),
    ("top-left", "tl w:50% h:50%"),
    ("top-right", "tr w:50% h:50%"),
    ("bottom-left", "bl w:50% h:50%"),
    ("bottom-right", "br w:50% h:50%"),
    ("left-third", "tl w:1/3 h:100%"),
    ("center-third", "x:1/3 w:1/3 h:100%"),
    ("right-third", "x:2/3 w:1/3 h:100%"),
    ("top-third", "tl w:100% h:1/3"),
    ("middle-third", "y:1/3 w:100% h:1/3"),
    ("bottom-third", "y:2/3 w:100% h:1/3"),
    ("left-two-thirds", "tl w:2/3 h:100%"),
    ("right-two-thirds", "x:1/3 w:2/3 h:100%") ]

/-- A position specification: either the symbolic string form or the
absolute dict form `x/y/width/height` (the `isinstance(position_str, dict)`
branch). -/
inductive PosSpec where
  | str (s : String)
  | record (x y width height : Option ℤ)
deriving DecidableEq, Repr

/-! ### Geometry resolver (`parse_position`, lines 108-192) -/

/-- State of the token loop of `parse_position`: the relative offsets and
sizes and the current anchor. -/
structure ParseSt where
  x_rel : ℚ
  y_rel : ℚ
  w_rel : ℚ
  h_rel : ℚ
  anchor : List Char
deriving DecidableEq, Repr

/-- Shared body of the four identical `axis:value` branches of the token
loop (lines 135-166; the source repeats this code verbatim for `x`, `y`,
`w`, `h` with the axis dimension `dim`):
`'%' in val` → `float(val.rstrip('%')) / 100`;
`'/' in val` → `float(Fraction(val))`;
otherwise → `int(val) / dim`  (so a bare integer is divided by the
monitor dimension; `dim = 0` raises `ZeroDivisionError`).
Each float operation is rounded by `fl`. -/
def parseRel (fl : ℚ → ℚ) (val : List Char) (dim : ℤ) : Except String ℚ :=
  if val.contains '%' then
    match pyParseFloat (pyRstripCharL '%' val) with
    | some q => .ok (fl (fl q / 100))
    | none => .error "ValueError: float"
  else if val.contains '/' then
    match pyParseFraction val with
    | some q => .ok (fl q)
    | none => .error "ValueError: Fraction"
  else
    match pyParseInt val with
    | some n => if dim = 0 then .error "ZeroDivisionError" else .ok (fl ((n : ℚ) / (dim : ℚ)))
    | none => .error "ValueError: int"

/-- One iteration of the token loop (lines 132-166): anchors set `anchor`,
`x:`/`y:`/`w:`/`h:` tokens set the matching relative variable, anything
else is silently ignored. -/
def stepTok (fl : ℚ → ℚ) (mon : Mon) (st : ParseSt) (tok : List Char) :
    Except String ParseSt :=
  if tok = "tl".data ∨ tok = "tr".data ∨ tok = "bl".data ∨ tok = "br".data ∨
      tok = "c".data then
    .ok { st with anchor := tok }
  else if tok.take 2 = "x:".data then
    (parseRel fl (tok.drop 2) mon.w).map fun q => { st with x_rel := q }
  else if tok.take 2 = "y:".data then
    (parseRel fl (tok.drop 2) mon.h).map fun q => { st with y_rel := q }
  else if tok.take 2 = "w:".data then
    (parseRel fl (tok.drop 2) mon.w).map fun q => { st with w_rel := q }
  else if tok.take 2 = "h:".data then
    (parseRel fl (tok.drop 2) mon.h).map fun q => { st with h_rel := q }
  else
    .ok st

/-- Initial loop state (line 126-128): offsets `0`, sizes `1.0`, anchor `tl`. -/
def initSt : ParseSt :=
  { x_rel := 0, y_rel := 0, w_rel := 1, h_rel := 1, anchor := "tl".data }

/-- `parse_position(position_str, monitor)` (lines 108-192).  Looks the
monitor up (with the eager-`primary` fallback), handles the absolute dict
form, expands shortcuts, runs the token loop, then computes the rectangle
from the anchor table.  Python `int(...)` on a float is `pytrunc`, Python
`//` on ints is `Int.fdiv`; each float multiplication is rounded by `fl`
(with the int operand first converted, i.e. rounded, itself). -/
def parse_position (fl : ℚ → ℚ) (ms : Monitors) (monitor : String) (pos : PosSpec) :
    Except String (ℤ × ℤ × ℤ × ℤ) := do
  let mon ← monGet ms monitor
  match pos with
  | .record ox oy ow oh =>
    .ok (ox.getD mon.x, oy.getD mon.y, ow.getD mon.w, oh.getD mon.h)
  | .str s0 =>
    let s := (List.lookup s0 SHORTCUTS).getD s0
    let toks := pySplitWsAux s.data []
    let st ← toks.foldlM (stepTok fl mon) initSt
    let w := pytrunc (fl (fl (mon.w : ℚ) * st.w_rel))
    let h := pytrunc (fl (fl (mon.h : ℚ) * st.h_rel))
    let xoff := pytrunc (fl (fl (mon.w : ℚ) * st.x_rel))
    let yoff := pytrunc (fl (fl (mon.h : ℚ) * st.y_rel))
    let xy :=
      if st.anchor = "tl".data then (mon.x + xoff, mon.y + yoff)
      else if st.anchor = "tr".data then (mon.x + mon.w - w - xoff, mon.y + yoff)
      else if st.anchor = "bl".data then (mon.x + xoff, mon.y + mon.h - h - yoff)
      else if st.anchor = "br".data then
        (mon.x + mon.w - w - xoff, mon.y + mon.h - h - yoff)
      else if st.anchor = "c".data then
        (mon.x + (mon.w - w).fdiv 2 + xoff, mon.y + (mon.h - h).fdiv 2 + yoff)
      else (mon.x + xoff, mon.y + yoff)
    .ok (xy.1, xy.2, w, h)

/-! ### Window entries and the external-collaborator environment -/

/-- One template window declaration (§3 WindowEntry).  `wtype` and `command`
model the mandatory `window_config["type"]` / `window_config["command"]`
accesses; the optional fields model `window_config.get(...)`. -/
structure WindowConfig where
  wtype : String
  command : String
  title : Option String := none
  window_class : Option String := none
  monitor : Option String := none
  position : Option PosSpec := none
  desktop : Option ℤ := none
deriving DecidableEq, Repr

/-- The black-box collaborators `open_window` talks to, as oracles.
`byName`/`byClass` give the window-id snapshot returned by the `xdotool`
query at the pre-spawn moment; `waitByName`/`waitByClass` give the result of
the whole `wait_for_window_by_*` polling loop (the discovered id, or `none`
on discovery timeout) as a function of the query key and the pre-existing
snapshot; the remaining fields are the spawn and `wmctrl` placement calls,
`Except`-valued because the Python calls can raise. -/
structure Env where
  monitors : Monitors
  byName : String → List String
  byClass : String → List String
  waitByName : String → List String → Option String
  waitByClass : String → List String → Option String
  spawnKitty : String → String → Except String Unit
  spawnApp : List String → Except String Unit
  moveToDesktop : String → ℤ → Except String Unit
  unmaximize : String → Except String Unit
  frameExtents : String → String
  applyGeom : String → ℤ × ℤ × ℤ × ℤ → Except String Unit

/-! ### Frame extents and placement (`get_frame_extents`, `position_window`) -/

/-- The `[int(x.strip()) for x in values.split(",")]` comprehension of
`get_frame_extents` (lines 237-238), applied to the raw `xprop` output:
take the piece after the first `=`, strip it, split on commas, parse each
piece as a Python int.  `none` models the `ValueError` of the comprehension. -/
def framePartsInts (out : String) : Option (List ℤ) :=
  let values := pyStripL (((pySplitCharAux '=' out.data []).get? 1).getD [])
  (pySplitCharAux ',' values []).mapM fun p => pyParseInt (pyStripL p)

/-- `get_frame_extents` parsing (lines 227-243) as a function of the `xprop`
stdout: `(left, right, top, bottom)`, or `(0, 0, 0, 0)` when there is no
`=`, a piece does not parse as an int (caught `ValueError`), or the number
of pieces is not exactly four. -/
def parseFrameExtents (out : String) : ℤ × ℤ × ℤ × ℤ :=
  if out.data.contains '=' then
    match framePartsInts out with
    | some [a, b, c, d] => (a, b, c, d)
    | _ => (0, 0, 0, 0)
  else (0, 0, 0, 0)

/-- `position_window` (lines 246-254): query the frame extents, then apply
the compensated geometry.  The source formats the four numbers into the
`wmctrl -e` string `"0,x,y,w,h"`; the model hands the same four numbers to
the `applyGeom` oracle as a tuple. -/
def position_window (env : Env) (wid : String) (x y w h : ℤ) : Except String Unit :=
  let ext := parseFrameExtents (env.frameExtents wid)
  env.applyGeom wid (x - ext.1, y - ext.2.2.1, w + ext.1 + ext.2.1, h + ext.2.2.1 + ext.2.2.2)

/-! ### Launching one window (`open_window`, lines 299-360) -/

/-- `open_window(window_config)`: resolve the geometry, snapshot existing
window ids for the discriminator, spawn, wait for the new window, and on
success assign desktop, unmaximize and place.  Float arithmetic inside the
geometry resolution uses binary64 rounding.  The `if win_id:` truthiness
test treats both `None` and the empty string as failure. -/
def open_window (env : Env) (cfg : WindowConfig) : Except String (Bool × String) := do
  let monitor := cfg.monitor.getD "primary"
  let position := cfg.position.getD (.str "full")
  let desktop := cfg.desktop.getD 1
  let r ← parse_position roundFloat env.monitors monitor position
  let x := r.1; let y := r.2.1; let w := r.2.2.1; let h := r.2.2.2
  if cfg.wtype = "kitty" then
    let title := cfg.title.getD "Kitty"
    let existing := env.byName title
    let _ ← env.spawnKitty title cfg.command
    match env.waitByName title existing with
    | some wid =>
      if wid = "" then .ok (false, title)
      else do
        let _ ← env.moveToDesktop wid desktop
        let _ ← env.unmaximize wid
        let _ ← position_window env wid x y w h
        .ok (true, title)
    | none => .ok (false, title)
  else if cfg.wtype = "app" then
    let wc0 := cfg.window_class.getD ""
    let wclass ←
      if wc0 = "" then
        match pySplitWs cfg.command with
        | [] => Except.error "IndexError: list index out of range"
        | wrd :: _ => Except.ok (((pySplitChar '/' wrd).getLast?).getD "")
      else Except.ok wc0
    let existing := env.byClass wclass
    let _ ← env.spawnApp (pySplitWs cfg.command)
    match env.waitByClass wclass existing with
    | some wid =>
      if wid = "" then .ok (false, wclass)
      else do
        let _ ← env.moveToDesktop wid desktop
        let _ ← env.unmaximize wid
        let _ ← position_window env wid x y w h
        .ok (true, wclass)
    | none => .ok (false, wclass)
  else
    .ok (false, "unknown")

/-! ### Grouping and the scheduler (lines 363-447) -/

/-- `get_window_group_key` (lines 363-380): `("kitty", title-or-"Kitty")`
for kitty windows, `("app", window_class-or-basename)` for apps (the
`if not window_class` truthiness test treats `None` and `""` alike),
`("unknown", "unknown")` otherwise.  `none` models the `IndexError` that
`cmd.split()[0]` raises on a whitespace-only command. -/
def get_window_group_key (cfg : WindowConfig) : Option (String × String) :=
  if cfg.wtype = "kitty" then some ("kitty", cfg.title.getD "Kitty")
  else if cfg.wtype = "app" then
    let wc0 := cfg.window_class.getD ""
    if wc0 = "" then
      match pySplitWs cfg.command with
      | [] => none
      | wrd :: _ => some ("app", ((pySplitChar '/' wrd).getLast?).getD "")
    else some ("app", wc0)
  else some ("unknown", "unknown")

/-- Body of the `process_window_group` loop (lines 393-398): run
`open_window`; any raised exception is caught and converted into the
failure outcome `(False, f"{title-or-unknown}: {e}")`. -/
def handleEntry (env : Env) (cfg : WindowConfig) : Bool × String :=
  match open_window env cfg with
  | .ok r => r
  | .error e => (false, (cfg.title.getD "unknown") ++ ": " ++ e)

/-- `process_window_group` (lines 383-399): process the group's windows
one by one in order, appending one outcome per window. -/
def process_window_group (env : Env) : List WindowConfig → List (Bool × String)
  | [] => []
  | cfg :: rest => handleEntry env cfg :: process_window_group env rest

/-- A group key paired with the group's windows, in insertion order. -/
abbrev Groups := List ((String × String) × List WindowConfig)

/-- Insert one window under its key, preserving the dict's insertion order:
append to the existing group if the key is present, otherwise add a new
group at the end (lines 429-432). -/
def addToGroup (gs : Groups) (k : String × String) (cfg : WindowConfig) : Groups :=
  match gs with
  | [] => [(k, [cfg])]
  | (k', ws) :: rest =>
    if k' = k then (k', ws ++ [cfg]) :: rest
    else (k', ws) :: addToGroup rest k cfg

/-- The grouping loop of `load_template` (lines 427-432), with explicit
accumulator.  `none` models an `IndexError` escaping from
`get_window_group_key`, which would abort `load_template`. -/
def buildGroupsAux (acc : Groups) : List WindowConfig → Option Groups
  | [] => some acc
  | cfg :: rest =>
    match get_window_group_key cfg with
    | none => none
    | some k => buildGroupsAux (addToGroup acc k cfg) rest

/-- `groups` as built by `load_template` from the template's window list. -/
def buildGroups (ws : List WindowConfig) : Option Groups :=
  buildGroupsAux [] ws

/-- The result aggregation of `load_template` (lines 436-447): every group
is processed by `process_window_group` and all per-window outcomes are
collected.  `as_completed` yields groups in a nondeterministic order; the
model collects them in group insertion order (the claims concern which
outcomes are collected, not the interleaving). -/
def run_groups (env : Env) (gs : Groups) : List (Bool × String) :=
  (gs.map fun kg => process_window_group env kg.2).flatten

/-- The scheduling core of `load_template`: group the window list, then
process every group. -/
def load_template_run (env : Env) (ws : List WindowConfig) :
    Option (List (Bool × String)) :=
  (buildGroups ws).map (run_groups env)

/-! ### Generic helper lemmas -/

theorem exceptBind_ok {ε α β : Type} (a : α) (f : α → Except ε β) :
    (Except.ok a >>= f : Except ε β) = f a := rfl

theorem exceptBind_error {ε α β : Type} (e : ε) (f : α → Except ε β) :
    (Except.error e >>= f : Except ε β) = Except.error e := rfl

theorem exceptMap_ok {ε α β : Type} (a : α) (f : α → β) :
    ((Except.ok a : Except ε α).map f) = Except.ok (f a) := rfl

theorem exceptMap_error {ε α β : Type} (e : ε) (f : α → β) :
    ((Except.error e : Except ε α).map f) = Except.error e := rfl

theorem pytrunc_of_nonneg {q : ℚ} (h : 0 ≤ q) : pytrunc q = ⌊q⌋ :=
  if_pos h

theorem pytrunc_intCast (a : ℤ) : pytrunc (a : ℚ) = a := by
  rcases le_or_lt 0 (a : ℚ) with h | h
  · rw [pytrunc_of_nonneg h, Int.floor_intCast]
  · rw [pytrunc, if_neg (not_le.mpr h), Int.ceil_intCast]

theorem pytrunc_zero : pytrunc 0 = 0 := by
  simpa using pytrunc_intCast 0

/-- Truncating `a · (p/q)` for nonnegative `a, p` and positive natural `q`
is integer (Euclidean = floor) division of `a·p` by `q`. -/
theorem pytrunc_intCast_mul_div (a p : ℤ) (q : ℕ) (ha : 0 ≤ a) (hp : 0 ≤ p) :
    pytrunc ((a : ℚ) * ((p : ℚ) / (q : ℚ))) = (a * p) / (q : ℤ) := by
  have hnn : (0 : ℚ) ≤ (a : ℚ) * ((p : ℚ) / (q : ℚ)) := by positivity
  rw [pytrunc_of_nonneg hnn]
  have : (a : ℚ) * ((p : ℚ) / (q : ℚ)) = ((a * p : ℤ) : ℚ) / (q : ℚ) := by
    push_cast; ring
  rw [this, Rat.floor_intCast_div_natCast]

theorem pytrunc_intCast_mul_one (a : ℤ) : pytrunc ((a : ℚ) * 1) = a := by
  rw [mul_one, pytrunc_intCast]

theorem pytrunc_intCast_mul_zero (a : ℤ) : pytrunc ((a : ℚ) * 0) = 0 := by
  rw [mul_zero, pytrunc_zero]

/-! ### Evaluating the token loop on the claim strings

The fold over the concrete token lists is evaluated once per position
string, with the monitor and the float-rounding function left symbolic:
none of these strings uses a bare-integer token, so the resulting state
does not depend on the monitor. -/

theorem fold_c_half (fl : ℚ → ℚ) (mon : Mon) :
    (pySplitWsAux "c w:50% h:50%".data []).foldlM (stepTok fl mon) initSt =
      Except.ok ⟨0, 0, fl (fl 50 / 100), fl (fl 50 / 100), "c".data⟩ := by
  have hsplit : pySplitWsAux "c w:50% h:50%".data [] =
      ["c".data, "w:50%".data, "h:50%".data] := by decide
  have hrel : parseRel fl "50%".data mon.w = Except.ok (fl (fl 50 / 100)) ∧
      parseRel fl "50%".data mon.h = Except.ok (fl (fl 50 / 100)) := by
    constructor <;>
      simp [parseRel, show pyParseFloat (pyRstripCharL '%' "50%".data) = some 50 by decide]
  rw [hsplit]
  simp only [List.foldlM, stepTok, bind, initSt]
  simp +decide [hrel.1, hrel.2, Except.bind, exceptMap_ok]
  rfl

theorem fold_tr_third (fl : ℚ → ℚ) (mon : Mon) :
    (pySplitWsAux "tr w:1/3 h:100%".data []).foldlM (stepTok fl mon) initSt =
      Except.ok ⟨0, 0, fl (1 / 3), fl (fl 100 / 100), "tr".data⟩ := by
  have hsplit : pySplitWsAux "tr w:1/3 h:100%".data [] =
      ["tr".data, "w:1/3".data, "h:100%".data] := by decide
  have hrelw : parseRel fl "1/3".data mon.w = Except.ok (fl (1 / 3)) := by
    simp [parseRel, show pyParseFraction "1/3".data = some (1 / 3) by
      with_unfolding_all decide]
  have hrelh : parseRel fl "100%".data mon.h = Except.ok (fl (fl 100 / 100)) := by
    simp [parseRel, show pyParseFloat (pyRstripCharL '%' "100%".data) = some 100 by decide]
  rw [hsplit]
  simp only [List.foldlM, stepTok, bind, initSt]
  simp +decide [hrelw, hrelh, Except.bind, exceptMap_ok]
  rfl

theorem pytrunc_intCast_mul_q (a : ℤ) (r : ℚ) (p : ℤ) (q : ℕ) (ha : 0 ≤ a)
    (hp : 0 ≤ p) (hr : r = (p : ℚ) / (q : ℚ)) :
    pytrunc ((a : ℚ) * r) = (a * p) / (q : ℤ) := by
  subst hr; exact pytrunc_intCast_mul_div a p q ha hp

/-! ### Correctness of the binary64 rounding model

The amended geometry claims quantify over all monitor sizes below `2^53`
(the integers the int-to-float conversion represents exactly), so the
rounding model needs actual correctness lemmas: the log is the floor
base-2 logarithm, dyadic rationals with small numerators are fixed points
of the rounding, and the round-to-nearest-even is within half a unit. -/

theorem natLog2F_spec : ∀ (fuel n : ℕ), 0 < n → n ≤ 2 ^ fuel →
    2 ^ (natLog2F fuel n) ≤ n ∧ n < 2 ^ (natLog2F fuel n + 1) := by
  intro fuel
  induction fuel with
  | zero =>
    intro n h1 h2
    have : n = 1 := by simpa using le_antisymm h2 h1
    subst this
    simp [natLog2F]
  | succ fuel ih =>
    intro n h1 h2
    rw [natLog2F]
    by_cases hn : n ≤ 1
    · obtain rfl : n = 1 := le_antisymm hn h1
      simp
    · rw [if_neg hn]
      push_neg at hn
      have hpos : 0 < n / 2 := Nat.div_pos (by omega) (by norm_num)
      have hle : n / 2 ≤ 2 ^ fuel := by
        have h3 : n / 2 ≤ 2 ^ (fuel + 1) / 2 := Nat.div_le_div_right h2
        have h4 : 2 ^ (fuel + 1) / 2 = 2 ^ fuel := by
          rw [pow_succ]
          omega
        omega
      obtain ⟨hl, hu⟩ := ih (n / 2) hpos hle
      rw [pow_succ] at hu
      rw [pow_succ, pow_succ, pow_succ]
      omega

theorem natLog2_spec (n : ℕ) (h : 0 < n) :
    2 ^ (natLog2 n) ≤ n ∧ n < 2 ^ (natLog2 n + 1) :=
  natLog2F_spec n n h (Nat.lt_two_pow n).le

theorem twoZPowLe_iff (L : ℤ) (a : ℚ) (_ha : 0 < a) :
    twoZPowLe L a = true ↔ (2 : ℚ) ^ L ≤ a := by
  have hden : (0 : ℚ) < (a.den : ℚ) := by exact_mod_cast a.pos
  have key : (a.num : ℚ) = a * (a.den : ℚ) :=
    (div_eq_iff (ne_of_gt hden)).mp (Rat.num_div_den a)
  cases L with
  | ofNat k =>
    simp only [twoZPowLe, decide_eq_true_eq]
    rw [show Int.ofNat k = (k : ℤ) from rfl, zpow_natCast,
      ← mul_le_mul_right hden, ← key]
    constructor <;> intro h <;> exact_mod_cast h
  | negSucc k =>
    simp only [twoZPowLe, decide_eq_true_eq]
    have hc : (0 : ℚ) < 2 ^ (k + 1) := by positivity
    rw [zpow_negSucc, inv_eq_one_div, div_le_iff₀ hc, ← mul_le_mul_right hden,
      one_mul, mul_right_comm, ← key]
    constructor <;> intro h
    · calc (a.den : ℚ) ≤ ((2 ^ (k + 1) * a.num : ℤ) : ℚ) := by exact_mod_cast h
        _ = (a.num : ℚ) * 2 ^ (k + 1) := by push_cast; ring
    · have h2 : (a.den : ℤ) ≤ a.num * 2 ^ (k + 1) := by exact_mod_cast h
      linarith

theorem ratLog2_spec (a : ℚ) (ha : 0 < a) :
    (2 : ℚ) ^ (ratLog2 a) ≤ a ∧ a < 2 ^ (ratLog2 a + 1) := by
  have hnum : 0 < a.num := Rat.num_pos.mpr ha
  have hnum1 : 0 < a.num.toNat := by omega
  have hden1 : 0 < a.den := a.pos
  obtain ⟨hP1, hP2⟩ := natLog2_spec a.num.toNat hnum1
  obtain ⟨hQ1, hQ2⟩ := natLog2_spec a.den hden1
  set P := natLog2 a.num.toNat with hP
  set Q := natLog2 a.den with hQ
  have hdenq : (0 : ℚ) < (a.den : ℚ) := by exact_mod_cast hden1
  have hkey : a = (a.num : ℚ) / (a.den : ℚ) := (Rat.num_div_den a).symm
  have hnq : (a.num : ℚ) = ((a.num.toNat : ℕ) : ℚ) := by
    exact_mod_cast (Int.toNat_of_nonneg hnum.le).symm
  have hnumU : (a.num : ℚ) < (2 : ℚ) ^ (P + 1) := by
    rw [hnq]
    calc ((a.num.toNat : ℕ) : ℚ) < ((2 ^ (P + 1) : ℕ) : ℚ) := by exact_mod_cast hP2
      _ = (2 : ℚ) ^ (P + 1) := by push_cast; ring
  have hnumL : (2 : ℚ) ^ P ≤ (a.num : ℚ) := by
    rw [hnq]
    calc (2 : ℚ) ^ P = ((2 ^ P : ℕ) : ℚ) := by push_cast; ring
      _ ≤ ((a.num.toNat : ℕ) : ℚ) := by exact_mod_cast hP1
  have hdenL : (2 : ℚ) ^ Q ≤ (a.den : ℚ) := by
    calc (2 : ℚ) ^ Q = ((2 ^ Q : ℕ) : ℚ) := by push_cast; ring
      _ ≤ (a.den : ℚ) := by exact_mod_cast hQ1
  have hdenU : (a.den : ℚ) < (2 : ℚ) ^ (Q + 1) := by
    calc (a.den : ℚ) < ((2 ^ (Q + 1) : ℕ) : ℚ) := by exact_mod_cast hQ2
      _ = (2 : ℚ) ^ (Q + 1) := by push_cast; ring
  have hup : a < (2 : ℚ) ^ ((P : ℤ) + 1 - Q) := by
    have e : (2 : ℚ) ^ ((P : ℤ) + 1 - Q) = (2 : ℚ) ^ (P + 1) / (2 : ℚ) ^ Q := by
      rw [zpow_sub₀ (by norm_num : (2 : ℚ) ≠ 0)]
      rw [show ((P : ℤ) + 1) = ((P + 1 : ℕ) : ℤ) by push_cast; ring, zpow_natCast,
        zpow_natCast]
    rw [hkey, e, div_lt_div_iff₀ hdenq (by positivity)]
    calc (a.num : ℚ) * 2 ^ Q < (2 : ℚ) ^ (P + 1) * 2 ^ Q :=
          mul_lt_mul_of_pos_right hnumU (by positivity)
      _ ≤ (2 : ℚ) ^ (P + 1) * (a.den : ℚ) :=
          mul_le_mul_of_nonneg_left hdenL (by positivity)
  have hlo : (2 : ℚ) ^ ((P : ℤ) - Q - 1) < a := by
    have e : (2 : ℚ) ^ ((P : ℤ) - Q - 1) = (2 : ℚ) ^ P / (2 : ℚ) ^ (Q + 1) := by
      rw [show ((P : ℤ) - Q - 1) = (P : ℤ) - ((Q + 1 : ℕ) : ℤ) by push_cast; ring,
        zpow_sub₀ (by norm_num : (2 : ℚ) ≠ 0), zpow_natCast, zpow_natCast]
    rw [hkey, e, div_lt_div_iff₀ (by positivity) hdenq]
    calc (2 : ℚ) ^ P * (a.den : ℚ) < (2 : ℚ) ^ P * (2 : ℚ) ^ (Q + 1) :=
          mul_lt_mul_of_pos_left hdenU (by positivity)
      _ ≤ (a.num : ℚ) * (2 : ℚ) ^ (Q + 1) :=
          mul_le_mul_of_nonneg_right hnumL (by positivity)
  rw [ratLog2]
  by_cases hc : twoZPowLe ((natLog2 a.num.toNat : ℤ) - (natLog2 a.den : ℤ)) a
  · rw [if_pos hc]
    refine ⟨(twoZPowLe_iff _ a ha).mp hc, ?_⟩
    have e2 : (natLog2 a.num.toNat : ℤ) - (natLog2 a.den : ℤ) + 1 = (P : ℤ) + 1 - Q := by
      rw [← hP, ← hQ]; ring
    rw [e2]
    exact hup
  · rw [if_neg hc]
    have hnle : a < (2 : ℚ) ^ ((natLog2 a.num.toNat : ℤ) - (natLog2 a.den : ℤ)) := by
      by_contra hcon
      push_neg at hcon
      exact hc ((twoZPowLe_iff _ a ha).mpr hcon)
    constructor
    · have e2 : (natLog2 a.num.toNat : ℤ) - (natLog2 a.den : ℤ) - 1 = (P : ℤ) - Q - 1 := by
        rw [← hP, ← hQ]
      rw [e2]
      exact hlo.le
    · have e2 : (natLog2 a.num.toNat : ℤ) - (natLog2 a.den : ℤ) - 1 + 1 =
          (natLog2 a.num.toNat : ℤ) - (natLog2 a.den : ℤ) := by ring
      rw [e2]
      exact hnle

theorem ratLog2_unique (a : ℚ) (e : ℤ) (ha : 0 < a)
    (h1 : (2 : ℚ) ^ e ≤ a) (h2 : a < 2 ^ (e + 1)) : ratLog2 a = e := by
  obtain ⟨g1, g2⟩ := ratLog2_spec a ha
  by_contra hne
  rcases lt_or_gt_of_ne hne with hlt | hgt
  · have : (2 : ℚ) ^ (ratLog2 a + 1) ≤ 2 ^ e :=
      zpow_le_zpow_right₀ one_le_two (by omega)
    linarith
  · have : (2 : ℚ) ^ (e + 1) ≤ 2 ^ (ratLog2 a) :=
      zpow_le_zpow_right₀ one_le_two (by omega)
    linarith

theorem roundTiesEven_bounds (y : ℚ) :
    y - 1 / 2 ≤ (roundTiesEven y : ℚ) ∧ (roundTiesEven y : ℚ) ≤ y + 1 / 2 := by
  have h1 := Int.floor_le y
  have h2 := Int.sub_one_lt_floor y
  simp only [roundTiesEven]
  split_ifs with ha hb hc <;> push_cast <;> constructor <;> push_neg at * <;> linarith

theorem roundTiesEven_ge_of (y : ℚ) (g : ℤ) (h : (g : ℚ) - 1 / 2 < y) :
    g ≤ roundTiesEven y := by
  have hb := (roundTiesEven_bounds y).1
  have h2 : (g : ℚ) - 1 < (roundTiesEven y : ℚ) := by linarith
  have h3 : g - 1 < roundTiesEven y := by exact_mod_cast h2
  omega

theorem roundTiesEven_le_of (y : ℚ) (g : ℤ) (h : y < (g : ℚ) + 1 / 2) :
    roundTiesEven y ≤ g := by
  have hb := (roundTiesEven_bounds y).2
  have h2 : (roundTiesEven y : ℚ) < (g : ℚ) + 1 := by linarith
  have h3 : roundTiesEven y < g + 1 := by exact_mod_cast h2
  omega

theorem roundTiesEven_eq_of (y : ℚ) (g : ℤ) (hl : (g : ℚ) - 1 / 2 < y)
    (hu : y < (g : ℚ) + 1 / 2) : roundTiesEven y = g :=
  le_antisymm (roundTiesEven_le_of y g hu) (roundTiesEven_ge_of y g hl)

theorem roundTiesEven_intCast (g : ℤ) : roundTiesEven (g : ℚ) = g :=
  roundTiesEven_eq_of _ g (by norm_num) (by norm_num)

theorem roundFloat_zero : roundFloat 0 = 0 := by
  simp [roundFloat]

theorem roundFloat_mul_zero (a : ℚ) : roundFloat (a * 0) = 0 := by
  rw [mul_zero, roundFloat_zero]

theorem roundFloat_of_pos (a : ℚ) (ha : 0 < a) :
    roundFloat a =
      (roundTiesEven (a * 2 ^ ((52 : ℤ) - ratLog2 a)) : ℚ) /
        2 ^ ((52 : ℤ) - ratLog2 a) := by
  simp only [roundFloat]
  rw [if_neg (ne_of_gt ha), abs_of_pos ha, if_neg (not_lt.mpr ha.le)]

/-- A dyadic rational `m / 2^k` with `0 ≤ m < 2^53` is exactly representable
in binary64 and is a fixed point of the rounding. -/
theorem roundFloat_dyadic (m : ℤ) (k : ℕ) (h0 : 0 ≤ m) (h53 : m < 2 ^ 53) :
    roundFloat ((m : ℚ) / 2 ^ k) = (m : ℚ) / 2 ^ k := by
  rcases eq_or_lt_of_le h0 with rfl | hm
  · simp [roundFloat_zero]
  · set a : ℚ := (m : ℚ) / 2 ^ k with hadef
    have hmq : (0 : ℚ) < (m : ℚ) := by exact_mod_cast hm
    have ha : 0 < a := by rw [hadef]; positivity
    set e := ratLog2 a with he
    obtain ⟨hl, hu⟩ := ratLog2_spec a ha
    have hek : e ≤ 52 - (k : ℤ) := by
      by_contra hcon
      push_neg at hcon
      have hb1 : (2 : ℚ) ^ ((53 : ℤ) - k) ≤ 2 ^ e :=
        zpow_le_zpow_right₀ one_le_two (by omega)
      have hb2 : a < (2 : ℚ) ^ ((53 : ℤ) - k) := by
        rw [hadef, zpow_sub₀ (by norm_num : (2 : ℚ) ≠ 0), zpow_natCast,
          div_lt_div_iff₀ (by positivity) (by positivity)]
        have : (m : ℚ) < (2 : ℚ) ^ (53 : ℕ) := by
          calc (m : ℚ) < ((2 ^ 53 : ℤ) : ℚ) := by exact_mod_cast h53
            _ = (2 : ℚ) ^ (53 : ℕ) := by push_cast; ring
        calc (m : ℚ) * 2 ^ k = 2 ^ k * (m : ℚ) := by ring
          _ < 2 ^ k * (2 : ℚ) ^ (53 : ℕ) := by
              exact mul_lt_mul_of_pos_left this (by positivity)
          _ = (2 : ℚ) ^ ((53 : ℤ)) * 2 ^ k := by
              rw [show ((53 : ℤ)) = ((53 : ℕ) : ℤ) from rfl, zpow_natCast]; ring
      linarith
    set t : ℕ := ((52 : ℤ) - e - k).toNat with ht
    have htz : ((t : ℕ) : ℤ) = 52 - e - k := by
      rw [ht]
      exact Int.toNat_of_nonneg (by omega)
    have hgq : a * 2 ^ ((52 : ℤ) - e) = ((m * 2 ^ t : ℤ) : ℚ) := by
      rw [hadef]
      rw [div_mul_eq_mul_div, div_eq_iff (by positivity : (2 : ℚ) ^ k ≠ 0)]
      push_cast
      rw [← zpow_natCast (2 : ℚ) t, ← zpow_natCast (2 : ℚ) k, htz, mul_assoc,
        ← zpow_add₀ (by norm_num : (2 : ℚ) ≠ 0),
        show (52 : ℤ) - e - k + k = 52 - e by ring]
    rw [roundFloat_of_pos a ha, ← he, hgq, roundTiesEven_intCast]
    rw [← hgq, mul_div_cancel_right₀ _ (by positivity : (2 : ℚ) ^ ((52 : ℤ) - e) ≠ 0)]

/-- Integers below `2^53` convert to binary64 exactly. -/
theorem roundFloat_intCast (m : ℤ) (h0 : 0 ≤ m) (h53 : m < 2 ^ 53) :
    roundFloat (m : ℚ) = (m : ℚ) := by
  have := roundFloat_dyadic m 0 h0 h53
  simpa using this

/-- Halves of integers below `2^53` are exactly representable. -/
theorem roundFloat_int_half (m : ℤ) (h0 : 0 ≤ m) (h53 : m < 2 ^ 53) :
    roundFloat ((m : ℚ) / 2) = (m : ℚ) / 2 := by
  have := roundFloat_dyadic m 1 h0 h53
  simpa using this

theorem pytrunc_int_div_two (m : ℤ) (h0 : 0 ≤ m) :
    pytrunc ((m : ℚ) / 2) = m / 2 := by
  rw [pytrunc_of_nonneg (by positivity)]
  have e : ((2 : ℚ)) = ((2 : ℕ) : ℚ) := by norm_num
  rw [e, Rat.floor_intCast_div_natCast]
  norm_num

/-- Core rounding-window lemma: if `x` lies in the binade `[2^t, 2^(t+1))`
with `t ≤ 51`, strictly above the integer `j` and at most `j + 2/3`, then
binary64 rounding keeps `x` inside `[j, j+1)`, so truncation gives `j`. -/
theorem pytrunc_roundFloat_window (x : ℚ) (j : ℤ) (t : ℕ) (ht51 : t ≤ 51)
    (hj0 : 0 ≤ j) (hxl : (2 : ℚ) ^ (t : ℤ) ≤ x) (hxu : x < 2 ^ ((t : ℤ) + 1))
    (hjx : (j : ℚ) < x) (hxj : x ≤ (j : ℚ) + 2 / 3) :
    pytrunc (roundFloat x) = j := by
  have hx0 : 0 < x := lt_of_lt_of_le (by positivity) hxl
  have he : ratLog2 x = t := ratLog2_unique x t hx0 hxl hxu
  set Sq : ℚ := (2 : ℚ) ^ ((52 : ℤ) - t) with hSq
  have hSqpos : 0 < Sq := by rw [hSq]; positivity
  have hSq2 : (2 : ℚ) ≤ Sq := by
    rw [hSq]
    calc (2 : ℚ) = (2 : ℚ) ^ (1 : ℤ) := by norm_num
      _ ≤ (2 : ℚ) ^ ((52 : ℤ) - t) := zpow_le_zpow_right₀ one_le_two (by omega)
  set S : ℤ := 2 ^ (52 - t) with hS
  have hcast : ((S : ℤ) : ℚ) = Sq := by
    rw [hS, hSq]
    push_cast
    rw [← zpow_natCast (2 : ℚ) (52 - t)]
    congr 1
    omega
  set y : ℚ := x * Sq with hy
  set g : ℤ := j * S with hg
  have hgq : ((g : ℤ) : ℚ) = (j : ℚ) * Sq := by rw [hg]; push_cast [hcast]; ring
  have hR1 : g ≤ roundTiesEven y := by
    apply roundTiesEven_ge_of
    have : ((g : ℤ) : ℚ) < y := by
      rw [hgq, hy]
      exact mul_lt_mul_of_pos_right hjx hSqpos
    linarith
  have hR2 : roundTiesEven y ≤ g + S - 1 := by
    apply roundTiesEven_le_of
    have h1 : y ≤ ((j : ℚ) + 2 / 3) * Sq := by
      rw [hy]
      exact mul_le_mul_of_nonneg_right hxj hSqpos.le
    have h2 : ((j : ℚ) + 2 / 3) * Sq = (g : ℚ) + (2 / 3) * Sq := by
      rw [hgq]; ring
    push_cast [hcast]
    rw [hgq]
    nlinarith [hSq2, hSqpos, h1, h2]
  have hrf : roundFloat x = ((roundTiesEven y : ℤ) : ℚ) / Sq := by
    rw [roundFloat_of_pos x hx0, he, ← hSq, ← hy]
  rw [hrf]
  have hfl : (j : ℚ) ≤ ((roundTiesEven y : ℤ) : ℚ) / Sq := by
    rw [le_div_iff₀ hSqpos, ← hgq]
    exact_mod_cast hR1
  have hfu : ((roundTiesEven y : ℤ) : ℚ) / Sq < (j : ℚ) + 1 := by
    rw [div_lt_iff₀ hSqpos]
    have h3 : ((roundTiesEven y : ℤ) : ℚ) ≤ ((g + S - 1 : ℤ) : ℚ) := by exact_mod_cast hR2
    have h4 : ((g + S - 1 : ℤ) : ℚ) = (j : ℚ) * Sq + Sq - 1 := by
      push_cast [hcast, hgq]
      ring
    nlinarith [hSqpos]
  have hnn : (0 : ℚ) ≤ ((roundTiesEven y : ℤ) : ℚ) / Sq :=
    le_trans (by exact_mod_cast hj0) hfl
  rw [pytrunc_of_nonneg hnn, Int.floor_eq_iff]
  exact ⟨hfl, hfu⟩

/-- If `j` is strictly between consecutive powers of two (binade `t ≤ 51`),
then `j - j/2^54` is within half an ulp of `j`, so binary64 rounds it back
to the integer `j` exactly. -/
theorem pytrunc_roundFloat_near (j : ℤ) (t : ℕ) (ht51 : t ≤ 51)
    (hjl : 2 ^ t < j) (hju : j < 2 ^ (t + 1)) :
    pytrunc (roundFloat ((j : ℚ) - (j : ℚ) / 2 ^ 54)) = j := by
  have hpt : (0 : ℤ) < 2 ^ t := by positivity
  have hj0 : 0 < j := lt_trans hpt hjl
  have hjq : (0 : ℚ) < (j : ℚ) := by exact_mod_cast hj0
  have hc : (((2 : ℤ) ^ t : ℤ) : ℚ) = (2 : ℚ) ^ (t : ℤ) := by
    push_cast
    rw [zpow_natCast]
  have hc2 : (((2 : ℤ) ^ (t + 1) : ℤ) : ℚ) = (2 : ℚ) ^ ((t : ℤ) + 1) := by
    push_cast
    rw [← zpow_natCast (2 : ℚ) (t + 1)]
    congr 1
  set x : ℚ := (j : ℚ) - (j : ℚ) / 2 ^ 54 with hxdef
  have hj52 : j < 2 ^ 52 := by
    calc j < 2 ^ (t + 1) := hju
      _ ≤ 2 ^ 52 := pow_le_pow_right₀ (by norm_num) (by omega)
  have hjq54 : (j : ℚ) < 2 ^ 54 := by
    have h1 : (j : ℚ) < 2 ^ 52 := by exact_mod_cast hj52
    nlinarith
  have hεlt : (j : ℚ) / 2 ^ 54 < 1 := by
    rw [div_lt_one (by norm_num : (0 : ℚ) < 2 ^ 54)]
    exact hjq54
  have hεpos : 0 < (j : ℚ) / 2 ^ 54 := by positivity
  have hjlq : (2 : ℚ) ^ (t : ℤ) + 1 ≤ (j : ℚ) := by
    rw [← hc]
    exact_mod_cast (by omega : (2 : ℤ) ^ t + 1 ≤ j)
  have hjuq : (j : ℚ) < (2 : ℚ) ^ ((t : ℤ) + 1) := by
    rw [← hc2]
    exact_mod_cast hju
  have hxl : (2 : ℚ) ^ (t : ℤ) ≤ x := by
    rw [hxdef]
    linarith
  have hxu : x < (2 : ℚ) ^ ((t : ℤ) + 1) := by
    rw [hxdef]
    linarith
  have hx0 : 0 < x := lt_of_lt_of_le (by positivity) hxl
  have he : ratLog2 x = t := ratLog2_unique x t hx0 hxl hxu
  set Sq : ℚ := (2 : ℚ) ^ ((52 : ℤ) - t) with hSq
  have hSqpos : 0 < Sq := by rw [hSq]; positivity
  set S : ℤ := 2 ^ (52 - t) with hS
  have hcast : ((S : ℤ) : ℚ) = Sq := by
    rw [hS, hSq]
    push_cast
    rw [← zpow_natCast (2 : ℚ) (52 - t)]
    congr 1
    omega
  set g : ℤ := j * S with hg
  have hgq : ((g : ℤ) : ℚ) = (j : ℚ) * Sq := by rw [hg]; push_cast [hcast]; ring
  have hjSq : (j : ℚ) * Sq < (2 : ℚ) ^ (53 : ℤ) := by
    have h1 : (j : ℚ) * Sq < (2 : ℚ) ^ ((t : ℤ) + 1) * Sq :=
      mul_lt_mul_of_pos_right hjuq hSqpos
    rw [hSq, ← zpow_add₀ (two_ne_zero) ((t : ℤ) + 1) ((52 : ℤ) - t)] at h1
    rw [show (t : ℤ) + 1 + ((52 : ℤ) - t) = 53 by ring] at h1
    exact h1
  have hδlt : (j : ℚ) * Sq / 2 ^ 54 < 1 / 2 := by
    rw [div_lt_iff₀ (by norm_num : (0 : ℚ) < 2 ^ 54)]
    have h2 : (2 : ℚ) ^ (53 : ℤ) = 1 / 2 * 2 ^ 54 := by
      rw [show (53 : ℤ) = ((53 : ℕ) : ℤ) by norm_num, zpow_natCast]
      norm_num
    linarith
  have hδpos : 0 < (j : ℚ) * Sq / 2 ^ 54 := by positivity
  have hy : x * Sq = (g : ℚ) - (j : ℚ) * Sq / 2 ^ 54 := by
    rw [hxdef, hgq]
    ring
  have hRT : roundTiesEven (x * Sq) = g := by
    apply roundTiesEven_eq_of
    · rw [hy]; linarith
    · rw [hy]; linarith
  have hrf : roundFloat x = (j : ℚ) := by
    rw [roundFloat_of_pos x hx0, he, ← hSq, hRT, hgq,
      mul_div_cancel_right₀ _ (ne_of_gt hSqpos)]
  rw [hrf, pytrunc_intCast]

/-- If `j = 2^t` (`t ≤ 51`), then `j - j/2^54 = 2^t - 2^(t-54)` sits exactly
half an ulp below `j` in the binade below; the round-half-to-even tie rule
rounds it up to the even significand `2^53`, i.e. back to `j` exactly. -/
theorem pytrunc_roundFloat_pow (t : ℕ) (j : ℤ)
    (hj : j = 2 ^ t) :
    pytrunc (roundFloat ((j : ℚ) - (j : ℚ) / 2 ^ 54)) = j := by
  subst hj
  have hc : (((2 : ℤ) ^ t : ℤ) : ℚ) = (2 : ℚ) ^ (t : ℤ) := by
    push_cast
    rw [zpow_natCast]
  set c : ℚ := (2 : ℚ) ^ (t : ℤ) with hcdef
  have hc0 : 0 < c := by rw [hcdef]; positivity
  rw [hc]
  set x : ℚ := c - c / 2 ^ 54 with hxdef
  have hxl : (2 : ℚ) ^ ((t : ℤ) - 1) ≤ x := by
    have h1 : (2 : ℚ) ^ ((t : ℤ) - 1) = c / 2 := by
      rw [hcdef, zpow_sub₀ (two_ne_zero : (2 : ℚ) ≠ 0)]
      norm_num
    rw [h1, hxdef]
    nlinarith [hc0]
  have hxu : x < (2 : ℚ) ^ (((t : ℤ) - 1) + 1) := by
    rw [show ((t : ℤ) - 1) + 1 = (t : ℤ) by ring, ← hcdef, hxdef]
    have : 0 < c / 2 ^ 54 := by positivity
    linarith
  have hx0 : 0 < x := lt_of_lt_of_le (by positivity) hxl
  have he : ratLog2 x = (t : ℤ) - 1 := ratLog2_unique x ((t : ℤ) - 1) hx0 hxl hxu
  have h53 : (9007199254740992 : ℚ) = (2 : ℚ) ^ (53 : ℤ) := by
    rw [show (53 : ℤ) = ((53 : ℕ) : ℤ) by norm_num, zpow_natCast]
    norm_num
  have hcc : c * (2 : ℚ) ^ ((52 : ℤ) - ((t : ℤ) - 1)) = (2 : ℚ) ^ (53 : ℤ) := by
    rw [hcdef, ← zpow_add₀ (two_ne_zero : (2 : ℚ) ≠ 0)]
    congr 1
    ring
  have hy : x * (2 : ℚ) ^ ((52 : ℤ) - ((t : ℤ) - 1)) = (9007199254740992 : ℚ) - 1 / 2 := by
    calc x * (2 : ℚ) ^ ((52 : ℤ) - ((t : ℤ) - 1))
        = c * (2 : ℚ) ^ ((52 : ℤ) - ((t : ℤ) - 1))
          - c * (2 : ℚ) ^ ((52 : ℤ) - ((t : ℤ) - 1)) / 2 ^ 54 := by rw [hxdef]; ring
      _ = (2 : ℚ) ^ (53 : ℤ) - (2 : ℚ) ^ (53 : ℤ) / 2 ^ 54 := by rw [hcc]
      _ = (9007199254740992 : ℚ) - 1 / 2 := by rw [← h53]; norm_num
  have hRT : roundTiesEven ((9007199254740992 : ℚ) - 1 / 2) = 9007199254740992 := by
    with_unfolding_all decide
  have hrf : roundFloat x = c := by
    rw [roundFloat_of_pos x hx0, he, hy, hRT]
    push_cast
    rw [h53, hcdef, ← zpow_sub₀ (two_ne_zero : (2 : ℚ) ≠ 0)]
    congr 1
    ring
  rw [hrf, ← hc]
  exact pytrunc_intCast _

/-- Multiplying an integer `0 ≤ m < 2^53` by the binary64 value of `1/3`
(namely `6004799503160661/2^54`) and truncating gives exactly `m / 3`
(Python's `int`, i.e. floor for nonnegative values). -/
theorem pytrunc_roundFloat_mul_f13 (m : ℤ) (h0 : 0 ≤ m) (h53 : m < 2 ^ 53) :
    pytrunc (roundFloat ((m : ℚ) * ((6004799503160661 : ℚ) / 2 ^ 54))) = m / 3 := by
  by_cases hm3 : m < 3
  · interval_cases m <;> with_unfolding_all decide
  · push_neg at hm3
    obtain ⟨j, r, hm, hr0, hr2, hj1⟩ :
        ∃ j r, m = 3 * j + r ∧ 0 ≤ r ∧ r < 3 ∧ 1 ≤ j :=
      ⟨m / 3, m % 3, by omega, by omega, by omega, by omega⟩
    have hgoal : m / 3 = j := by omega
    rw [hgoal]
    have e53 : (2 : ℤ) ^ 53 = 9007199254740992 := by norm_num
    have e52 : (2 : ℤ) ^ 52 = 4503599627370496 := by norm_num
    have hj52 : j < 2 ^ 52 := by omega
    have hjt : j.toNat ≠ 0 := by omega
    obtain ⟨hl, hu⟩ := natLog2_spec j.toNat (Nat.pos_of_ne_zero hjt)
    set t := natLog2 j.toNat with htdef
    have hjnat : (j.toNat : ℤ) = j := Int.toNat_of_nonneg (by omega)
    have hjl : (2 : ℤ) ^ t ≤ j := by rw [← hjnat]; exact_mod_cast hl
    have hju : j < (2 : ℤ) ^ (t + 1) := by rw [← hjnat]; exact_mod_cast hu
    have ht51 : t ≤ 51 := by
      by_contra hcon
      push_neg at hcon
      have hpow : (2 : ℤ) ^ 52 ≤ (2 : ℤ) ^ t := pow_le_pow_right₀ (by norm_num) (by omega)
      omega
    have hcq : (((2 : ℤ) ^ t : ℤ) : ℚ) = (2 : ℚ) ^ (t : ℤ) := by
      push_cast
      rw [zpow_natCast]
    have hcq2 : (((2 : ℤ) ^ (t + 1) : ℤ) : ℚ) = (2 : ℚ) ^ ((t : ℤ) + 1) := by
      push_cast
      rw [← zpow_natCast (2 : ℚ) (t + 1)]
      congr 1
    have hjlq : (2 : ℚ) ^ (t : ℤ) ≤ (j : ℚ) := by
      rw [← hcq]; exact_mod_cast hjl
    have hjuq1 : (j : ℚ) + 1 ≤ (2 : ℚ) ^ ((t : ℤ) + 1) := by
      rw [← hcq2]
      exact_mod_cast (by omega : j + 1 ≤ (2 : ℤ) ^ (t + 1))
    have hF : (6004799503160661 : ℚ) / 2 ^ 54 = 1 / 3 - 1 / (3 * 2 ^ 54) := by
      norm_num
    have hx : (m : ℚ) * ((6004799503160661 : ℚ) / 2 ^ 54)
        = (j : ℚ) + (r : ℚ) / 3 - (m : ℚ) / (3 * 2 ^ 54) := by
      have hmq : (m : ℚ) = 3 * (j : ℚ) + (r : ℚ) := by exact_mod_cast hm
      rw [hF, hmq]
      field_simp
      ring
    have hmq0 : (0 : ℚ) < (m : ℚ) := by exact_mod_cast (by omega : (0 : ℤ) < m)
    have hεpos : 0 < (m : ℚ) / (3 * 2 ^ 54) := div_pos hmq0 (by norm_num)
    have hε : (m : ℚ) / (3 * 2 ^ 54) < 1 / 6 := by
      rw [div_lt_iff₀ (by norm_num : (0 : ℚ) < 3 * 2 ^ 54)]
      have hmq53 : (m : ℚ) < 2 ^ 53 := by exact_mod_cast h53
      have hc6 : (1 : ℚ) / 6 * (3 * 2 ^ 54) = 2 ^ 53 := by norm_num
      linarith
    by_cases hr : r = 0
    · have hx0 : (m : ℚ) * ((6004799503160661 : ℚ) / 2 ^ 54)
          = (j : ℚ) - (j : ℚ) / 2 ^ 54 := by
        have hmq : (m : ℚ) = 3 * (j : ℚ) := by exact_mod_cast (by omega : m = 3 * j)
        rw [hx, hr, hmq]
        push_cast
        field_simp
        ring
      rw [hx0]
      rcases eq_or_lt_of_le hjl with hpe | hps
      · exact pytrunc_roundFloat_pow t j hpe.symm
      · exact pytrunc_roundFloat_near j t ht51 hps hju
    · have hrl : (1 : ℚ) ≤ (r : ℚ) := by exact_mod_cast (by omega : (1 : ℤ) ≤ r)
      have hru : (r : ℚ) ≤ 2 := by exact_mod_cast (by omega : r ≤ (2 : ℤ))
      rw [hx]
      apply pytrunc_roundFloat_window _ j t ht51 (by omega)
      · linarith
      · linarith
      · linarith
      · linarith

unseal Rat.mul Rat.inv Rat.add Rat.sub in
/-- The binary64 value of `50.0 / 100`, a power of two, is exactly `1/2`.
(`Rat.mul`, `Rat.inv`, `Rat.add` and `Rat.sub` are unsealed so `decide` can
evaluate the rounding function.) -/
theorem roundFloat_half_val : roundFloat (roundFloat 50 / 100) = 1 / 2 := by
  decide

unseal Rat.mul Rat.inv Rat.add Rat.sub in
/-- The binary64 value of `100.0 / 100` is exactly `1`. -/
theorem roundFloat_one_val : roundFloat (roundFloat 100 / 100) = 1 := by
  decide

unseal Rat.mul Rat.inv Rat.add Rat.sub in
/-- The binary64 value nearest to `1/3` is `6004799503160661/2^54`. -/
theorem roundFloat_third_val :
    roundFloat (1 / 3) = (6004799503160661 : ℚ) / 2 ^ 54 := by
  decide

/-- Claim C3, counterexample.  On the 3×3 monitor at the origin, resolving
`"c w:50% h:50%"` (with binary64 float semantics, faithful to the source)
yields the rectangle `(1, 1, 1, 1)`: the code centers the half-size window
as `mon.x + (mon.w - w) // 2 = 1`, while the claim predicts
`x = mon.x + ⌊mon.w / 4⌋ = 0 + 3 / 4 = 0`. -/
theorem C3_counterexample :
    parse_position roundFloat [("primary", Mon.mk 0 0 3 3)] "primary"
        (.str "c w:50% h:50%") = .ok (1, 1, 1, 1) ∧
    (1 : ℤ) ≠ 0 + 3 / 4 := by
  constructor
  · with_unfolding_all decide
  · decide

/-- Claim C3 (amended): for every monitor rectangle with sizes in
`[0, 2^53)`, resolving `"c w:50% h:50%"` under binary64 float semantics
returns `w = ⌊mon.w/2⌋`, `h = ⌊mon.h/2⌋`, and centers the window:
`x = mon.x + ⌊(mon.w - ⌊mon.w/2⌋)/2⌋` (not `mon.x + ⌊mon.w/4⌋`, which
differs when `mon.w ≡ 3 (mod 4)`), symmetrically in `y`.  Within this range
the int-to-float conversion is exact and multiplying by the exactly
representable `0.5` halves the significand without rounding, so every float
step is exact; beyond `2^53` the conversion itself rounds. -/
theorem C3_amended_center_half (mon : Mon) (hw : 0 ≤ mon.w)
    (hw53 : mon.w < 2 ^ 53) (hh : 0 ≤ mon.h) (hh53 : mon.h < 2 ^ 53) :
    parse_position roundFloat [("primary", mon)] "primary" (.str "c w:50% h:50%") =
      .ok (mon.x + (mon.w - mon.w / 2) / 2, mon.y + (mon.h - mon.h / 2) / 2,
        mon.w / 2, mon.h / 2) := by
  have hmon : monGet [("primary", mon)] "primary" = .ok mon := by
    simp [monGet, List.lookup]
  have hshort : (List.lookup "c w:50% h:50%" SHORTCUTS).getD "c w:50% h:50%" =
      "c w:50% h:50%" := by decide
  have hhalf : roundFloat (roundFloat 50 / 100) = 1 / 2 := roundFloat_half_val
  have htr : ∀ a : ℤ, 0 ≤ a → a < 2 ^ 53 →
      pytrunc (roundFloat (roundFloat (a : ℚ) * (1 / 2))) = a / 2 := by
    intro a ha ha53
    rw [roundFloat_intCast a ha ha53, mul_one_div, roundFloat_int_half a ha ha53]
    exact pytrunc_int_div_two a ha
  have hz : ∀ a : ℤ, pytrunc (roundFloat (roundFloat (a : ℚ) * 0)) = 0 := by
    intro a
    rw [roundFloat_mul_zero, pytrunc_zero]
  rw [parse_position, hmon, exceptBind_ok]
  simp only [hshort, fold_c_half roundFloat mon, exceptBind_ok, hhalf]
  simp only [hz, htr mon.w hw hw53, htr mon.h hh hh53]
  simp +decide [Int.fdiv_eq_ediv]

/-- Claim C4 (amended): for every monitor rectangle with sizes in
`[0, 2^53)`, resolving `"tr w:1/3 h:100%"` under binary64 float semantics
returns `x = mon.x + mon.w - ⌊mon.w/3⌋`, `y = mon.y`, `w = ⌊mon.w/3⌋`,
`h = mon.h`.  The fraction token is evaluated as the exact rational `1/3`
and then converted to the binary64 value `6004799503160661/2^54`; truncating
the rounded product of the (exactly converted) width with that value still
lands on `⌊mon.w/3⌋` for every width below `2^53`, but not beyond
(`C4_counterexample`). -/
theorem C4_resolve_tr_third (mon : Mon) (hw : 0 ≤ mon.w)
    (hw53 : mon.w < 2 ^ 53) (hh : 0 ≤ mon.h) (hh53 : mon.h < 2 ^ 53) :
    parse_position roundFloat [("primary", mon)] "primary" (.str "tr w:1/3 h:100%") =
      .ok (mon.x + mon.w - mon.w / 3, mon.y, mon.w / 3, mon.h) := by
  have hmon : monGet [("primary", mon)] "primary" = .ok mon := by
    simp [monGet, List.lookup]
  have hshort : (List.lookup "tr w:1/3 h:100%" SHORTCUTS).getD "tr w:1/3 h:100%" =
      "tr w:1/3 h:100%" := by decide
  have hthird : roundFloat (1 / 3) = (6004799503160661 : ℚ) / 2 ^ 54 :=
    roundFloat_third_val
  have hone : roundFloat (roundFloat 100 / 100) = 1 := roundFloat_one_val
  have h3 : pytrunc (roundFloat (roundFloat (mon.w : ℚ) * roundFloat (1 / 3))) =
      mon.w / 3 := by
    rw [roundFloat_intCast mon.w hw hw53, hthird]
    exact pytrunc_roundFloat_mul_f13 mon.w hw hw53
  have h100 : pytrunc (roundFloat (roundFloat (mon.h : ℚ) * 1)) = mon.h := by
    rw [mul_one, roundFloat_intCast mon.h hh hh53, roundFloat_intCast mon.h hh hh53,
      pytrunc_intCast]
  have hz : ∀ a : ℤ, pytrunc (roundFloat (roundFloat (a : ℚ) * 0)) = 0 := by
    intro a
    rw [roundFloat_mul_zero, pytrunc_zero]
  rw [parse_position, hmon, exceptBind_ok]
  simp only [hshort, fold_tr_third roundFloat mon, exceptBind_ok, hone]
  simp only [hz, h3, h100]
  simp +decide

unseal Rat.mul Rat.inv Rat.add Rat.sub in
/-- Claim C4, counterexample to the unrestricted claim.  At a monitor of
width and height `2^53 + 3`, the int-to-float conversion rounds the
dimensions to `2^53 + 4` (ties to even) and the width product truncates to
`3002399751580332`, one more than `⌊(2^53 + 3)/3⌋ = 3002399751580331`; the
resolved height likewise exceeds `mon.h`. -/
theorem C4_counterexample :
    parse_position roundFloat
        [("primary", Mon.mk 0 0 9007199254740995 9007199254740995)] "primary"
        (.str "tr w:1/3 h:100%") =
      .ok (6004799503160663, 0, 3002399751580332, 9007199254740996) ∧
    (3002399751580332 : ℤ) ≠ 9007199254740995 / 3 ∧
    (9007199254740996 : ℤ) ≠ 9007199254740995 := by
  refine ⟨by decide, by decide, by decide⟩

/-- Claim C5: a bare-integer token value `n` in an `x:`/`y:`/`w:`/`h:` token
is interpreted as the relative fraction `n / dim` of the monitor dimension
`dim` on that axis (first conjunct, for any float rounding `fl`), not as a
literal pixel count, and consequently the resolved rectangle for such a
token depends on the monitor's resolution: with binary64 semantics,
`"w:1"` resolves to width `0` on a 49-pixel-wide monitor (since
`49 · fl(1/49) < 1` truncates to `0`) but to width `1` on a 2-pixel-wide
monitor. -/
theorem C5_bare_integer_is_relative :
    (∀ (fl : ℚ → ℚ) (val : List Char) (dim n : ℤ),
        pyParseInt val = some n → val.contains '%' = false →
        val.contains '/' = false → dim ≠ 0 →
        parseRel fl val dim = .ok (fl ((n : ℚ) / (dim : ℚ)))) ∧
    parse_position roundFloat [("primary", Mon.mk 0 0 49 49)] "primary"
        (.str "w:1") = .ok (0, 0, 0, 49) ∧
    parse_position roundFloat [("primary", Mon.mk 0 0 2 2)] "primary"
        (.str "w:1") = .ok (0, 0, 1, 2) := by
  refine ⟨?_, by with_unfolding_all decide, by with_unfolding_all decide⟩
  intro fl val dim n hint hpct hslash hdim
  rw [parseRel, hpct, hslash, hint]
  simp [hdim]

/-- Witness for C5: the token value `"800"` on a 1920-wide axis parses as
the integer `800` and is interpreted as the relative fraction `800 / 1920`. -/
theorem C5_witness :
    pyParseInt "800".data = some 800 ∧ (800 : ℤ) ≠ 0 ∧
    parseRel id "800".data 1920 = .ok ((800 : ℚ) / 1920) :=
  ⟨by decide, by decide,
    C5_bare_integer_is_relative.1 id "800".data 1920 800 (by decide) (by decide)
      (by decide) (by decide)⟩

/-- Witness for C3's amended theorem at the 1920×1080 monitor. -/
theorem C3_amended_witness :
    ((0 : ℤ) ≤ 1920 ∧ (1920 : ℤ) < 2 ^ 53) ∧
    parse_position roundFloat [("primary", Mon.mk 0 0 1920 1080)] "primary"
        (.str "c w:50% h:50%") =
      .ok (0 + (1920 - 1920 / 2) / 2, 0 + (1080 - 1080 / 2) / 2, 1920 / 2, 1080 / 2) :=
  ⟨⟨by decide, by decide⟩,
    C3_amended_center_half (Mon.mk 0 0 1920 1080) (by decide) (by decide)
      (by decide) (by decide)⟩

/-- Witness for C4's amended theorem at the 1920×1080 monitor. -/
theorem C4_witness :
    ((0 : ℤ) ≤ 1920 ∧ (1920 : ℤ) < 2 ^ 53) ∧
    parse_position roundFloat [("primary", Mon.mk 0 0 1920 1080)] "primary"
        (.str "tr w:1/3 h:100%") =
      .ok (0 + 1920 - 1920 / 3, 0, 1920 / 3, 1080) :=
  ⟨⟨by decide, by decide⟩,
    C4_resolve_tr_third (Mon.mk 0 0 1920 1080) (by decide) (by decide)
      (by decide) (by decide)⟩

/-- Claim C6: monitor lookup for a name absent from the registry returns the
rectangle aliased by `"primary"`; any lookup in an empty registry raises
(the eagerly evaluated `MONITORS["primary"]` default), and `main`'s guard
surfaces the empty registry as the no-monitors-detected fatal error before
any lookup can run. -/
theorem C6_lookup_fallback_and_empty_fails :
    (∀ (ms : Monitors) (name : String) (prim : Mon),
        List.lookup "primary" ms = some prim → List.lookup name ms = none →
        monGet ms name = .ok prim) ∧
    (∀ name : String, monGet [] name = .error "KeyError: primary") ∧
    mainMonitorsCheck [] = .error "No se detectaron monitores" := by
  refine ⟨?_, fun _ => rfl, rfl⟩
  intro ms name prim hp hn
  simp [monGet, hp, hn]

/-- Witness for C6 on a two-monitor registry and the unknown name `"HDMI-0"`. -/
theorem C6_witness :
    List.lookup "primary" [("DP-1", Mon.mk 0 0 1920 1080), ("primary", Mon.mk 0 0 1920 1080)] =
        some (Mon.mk 0 0 1920 1080) ∧
    monGet [("DP-1", Mon.mk 0 0 1920 1080), ("primary", Mon.mk 0 0 1920 1080)] "HDMI-0" =
      .ok (Mon.mk 0 0 1920 1080) :=
  ⟨by decide,
    C6_lookup_fallback_and_empty_fails.1 _ "HDMI-0" (Mon.mk 0 0 1920 1080)
      (by decide) (by decide)⟩

/-- Claim C8: window placement subtracts the frame extents from the target
position and adds them to the target size, so the applied geometry is
`(x - left, y - top, w + left + right, h + top + bottom)`. -/
theorem C8_placement_compensates_extents :
    ∀ (env : Env) (wid : String) (x y w h l r t b : ℤ),
      parseFrameExtents (env.frameExtents wid) = (l, r, t, b) →
      position_window env wid x y w h =
        env.applyGeom wid (x - l, y - t, w + l + r, h + t + b) := by
  intro env wid x y w h l r t b hx
  simp only [position_window, hx]

/-- A concrete environment whose `xprop` output carries the documented
`_GTK_FRAME_EXTENTS(CARDINAL) = 26, 26, 23, 29` example. -/
def envC8 : Env where
  monitors := [("primary", Mon.mk 0 0 1920 1080)]
  byName := fun _ => []
  byClass := fun _ => []
  waitByName := fun _ _ => none
  waitByClass := fun _ _ => none
  spawnKitty := fun _ _ => .ok ()
  spawnApp := fun _ => .ok ()
  moveToDesktop := fun _ _ => .ok ()
  unmaximize := fun _ => .ok ()
  frameExtents := fun _ => "_GTK_FRAME_EXTENTS(CARDINAL) = 26, 26, 23, 29"
  applyGeom := fun _ _ => .ok ()

/-- Witness for C8 at the documented extents example. -/
theorem C8_witness :
    position_window envC8 "0x1" 10 20 300 400 =
      envC8.applyGeom "0x1" (10 - 26, 20 - 23, 300 + 26 + 26, 400 + 23 + 29) :=
  C8_placement_compensates_extents envC8 "0x1" 10 20 300 400 26 26 23 29 (by decide)

/-- Claim C10: `get_frame_extents` parsing is total — it always returns a
4-tuple of integers, returning `(0,0,0,0)` when the property is absent (no
`=` in the output), when a piece fails to parse as an integer (the caught
`ValueError`), or when there are not exactly four comma-separated pieces,
and the four parsed integers otherwise. -/
theorem C10_frame_extents_total :
    ∀ out : String,
      (out.data.contains '=' = false → parseFrameExtents out = (0, 0, 0, 0)) ∧
      (framePartsInts out = none → parseFrameExtents out = (0, 0, 0, 0)) ∧
      (∀ ps, framePartsInts out = some ps → ps.length ≠ 4 →
        parseFrameExtents out = (0, 0, 0, 0)) ∧
      (∀ a b c d, out.data.contains '=' = true →
        framePartsInts out = some [a, b, c, d] → parseFrameExtents out = (a, b, c, d)) := by
  intro out
  refine ⟨?_, ?_, ?_, ?_⟩
  · intro h
    have h' : ¬ ('=' ∈ out.data) := by simpa using h
    simp [parseFrameExtents, h']
  · intro h
    by_cases hc : '=' ∈ out.data <;> simp [parseFrameExtents, h, hc]
  · intro ps hps hlen
    by_cases hc : '=' ∈ out.data
    · rw [parseFrameExtents, if_pos (by simpa using hc), hps]
      rcases ps with _ | ⟨a, _ | ⟨b, _ | ⟨c, _ | ⟨d, _ | e⟩⟩⟩⟩ <;> simp_all
    · rw [parseFrameExtents, if_neg (by simpa using hc)]
  · intro a b c d hc hps
    have hc' : '=' ∈ out.data := by simpa using hc
    simp [parseFrameExtents, hc', hps]

/-- Witness for C10 on the documented `xprop` output shape. -/
theorem C10_witness :
    framePartsInts "_GTK_FRAME_EXTENTS(CARDINAL) = 26, 26, 23, 29" =
        some [26, 26, 23, 29] ∧
    parseFrameExtents "_GTK_FRAME_EXTENTS(CARDINAL) = 26, 26, 23, 29" = (26, 26, 23, 29) :=
  ⟨by decide,
    (C10_frame_extents_total "_GTK_FRAME_EXTENTS(CARDINAL) = 26, 26, 23, 29").2.2.2
      26 26 23 29 (by decide) (by decide)⟩

/-! ### C7: discovery timeout outcomes -/

/-- A kitty window entry with an explicit title. -/
def cfgT1 : WindowConfig :=
  { wtype := "kitty", command := "htop", title := some "T1" }

/-- An environment in which spawning succeeds but the discovery poll always
times out (`waitByName`/`waitByClass` return `None`). -/
def envTimeout : Env where
  monitors := [("primary", Mon.mk 0 0 1920 1080)]
  byName := fun _ => ["0xold"]
  byClass := fun _ => []
  waitByName := fun _ _ => none
  waitByClass := fun _ _ => none
  spawnKitty := fun _ _ => .ok ()
  spawnApp := fun _ => .ok ()
  moveToDesktop := fun _ _ => .ok ()
  unmaximize := fun _ => .ok ()
  frameExtents := fun _ => ""
  applyGeom := fun _ _ => .ok ()

/-- Claim C7, counterexample.  On a discovery timeout the outcome label is
exactly the entry's bare title (`"T1"`), with no error annotation appended:
`open_window` returns `(False, title)` on the timeout path (lines 330/358),
so the label does not identify the discovery timeout, contradicting the
claimed "label plus an explanatory annotation". -/
theorem C7_counterexample :
    open_window envTimeout cfgT1 = .ok (false, "T1") ∧ cfgT1.title = some "T1" := by
  constructor
  · with_unfolding_all decide
  · rfl

/-- Claim C7 (amended): when discovery times out, the produced outcome is a
failure whose label is exactly the bare discriminator — the title (or
`"Kitty"`) for kitty entries, the effective window class for app entries —
with no additional annotation.  (Annotations are appended only by
`process_window_group` for raised exceptions.) -/
theorem C7_amended_timeout_bare_label :
    (∀ (env : Env) (cfg : WindowConfig) (r : ℤ × ℤ × ℤ × ℤ),
      cfg.wtype = "kitty" →
      parse_position roundFloat env.monitors (cfg.monitor.getD "primary")
          (cfg.position.getD (.str "full")) = .ok r →
      env.spawnKitty (cfg.title.getD "Kitty") cfg.command = .ok () →
      env.waitByName (cfg.title.getD "Kitty") (env.byName (cfg.title.getD "Kitty")) = none →
      open_window env cfg = .ok (false, cfg.title.getD "Kitty")) ∧
    (∀ (env : Env) (cfg : WindowConfig) (r : ℤ × ℤ × ℤ × ℤ) (d : String),
      cfg.wtype = "app" →
      get_window_group_key cfg = some ("app", d) →
      parse_position roundFloat env.monitors (cfg.monitor.getD "primary")
          (cfg.position.getD (.str "full")) = .ok r →
      env.spawnApp (pySplitWs cfg.command) = .ok () →
      env.waitByClass d (env.byClass d) = none →
      open_window env cfg = .ok (false, d)) := by
  constructor
  · intro env cfg r hk hp hs hw
    simp only [open_window, hp, exceptBind_ok, hk, if_true]
    simp only [hs, exceptBind_ok, hw]
  · intro env cfg r d ha hkey hp hs hw
    have hknotk : ¬ (cfg.wtype = "kitty") := by rw [ha]; decide
    simp only [open_window, hp, exceptBind_ok, ha]
    rw [if_neg (show ¬ (("app" : String) = "kitty") by decide), if_true]
    by_cases hwc : cfg.window_class.getD "" = ""
    · cases hsp : pySplitWs cfg.command with
      | nil =>
        have : get_window_group_key cfg = none := by
          simp [get_window_group_key, hknotk, ha, hwc, hsp]
        rw [this] at hkey
        exact absurd hkey (by simp)
      | cons wrd rest =>
        have hkey2 : get_window_group_key cfg =
            some ("app", ((pySplitChar '/' wrd).getLast?).getD "") := by
          simp [get_window_group_key, hknotk, ha, hwc, hsp]
        rw [hkey2] at hkey
        have hd : ((pySplitChar '/' wrd).getLast?).getD "" = d := by
          simpa using hkey
        rw [if_pos hwc]
        rw [hsp] at hs
        simp only [hd, exceptBind_ok, hs, hw]
    · have hkey2 : get_window_group_key cfg = some ("app", cfg.window_class.getD "") := by
        simp [get_window_group_key, hknotk, ha, hwc]
      rw [hkey2] at hkey
      have hd : cfg.window_class.getD "" = d := by simpa using hkey
      have hdne : ¬ (d = "") := hd ▸ hwc
      rw [hd, if_neg hdne]
      simp only [exceptBind_ok, hs, hw]

/-- Witness for C7's amended theorem: the concrete timeout environment
yields the bare-title failure outcome. -/
theorem C7_witness :
    cfgT1.wtype = "kitty" ∧ open_window envTimeout cfgT1 = .ok (false, "T1") :=
  ⟨rfl,
    C7_amended_timeout_bare_label.1 envTimeout cfgT1 (0, 0, 1920, 1080) rfl
      (by with_unfolding_all decide) rfl rfl⟩

/-! ### C9: the grouping discriminator is the launch discriminator -/

/-- Claim C9: the discriminator `get_window_group_key` computes is exactly
the one `open_window` uses for its existing-window snapshot and its
discovery poll.  First conjunct: for kitty entries the group key is
`("kitty", title-or-"Kitty")`.  Second and third conjuncts (behavioral):
changing the name-query and name-poll oracles anywhere except at the group
key's discriminator (kitty), or the class-query and class-poll oracles
anywhere except at the group key's discriminator (app), cannot change
`open_window`'s behavior — i.e. the launch step consults the discovery port
only at the grouping discriminator, so intra-group serialization protects
exactly the queries the launch performs. -/
theorem C9_discriminators_agree :
    (∀ cfg : WindowConfig, cfg.wtype = "kitty" →
      get_window_group_key cfg = some ("kitty", cfg.title.getD "Kitty")) ∧
    (∀ (cfg : WindowConfig) (env : Env) (f : String → List String)
        (g : String → List String → Option String),
      cfg.wtype = "kitty" →
      open_window
        { env with
          byName := fun s => if s = cfg.title.getD "Kitty" then env.byName s else f s,
          waitByName := fun s ids =>
            if s = cfg.title.getD "Kitty" then env.waitByName s ids else g s ids } cfg =
        open_window env cfg) ∧
    (∀ (cfg : WindowConfig) (env : Env) (f : String → List String)
        (g : String → List String → Option String) (d : String),
      cfg.wtype = "app" → get_window_group_key cfg = some ("app", d) →
      open_window
        { env with
          byClass := fun s => if s = d then env.byClass s else f s,
          waitByClass := fun s ids =>
            if s = d then env.waitByClass s ids else g s ids } cfg =
        open_window env cfg) := by
  refine ⟨?_, ?_, ?_⟩
  · intro cfg hk
    rw [get_window_group_key, if_pos hk]
  · intro cfg env f g hk
    simp only [open_window, hk, if_true, position_window]
  · intro cfg env f g d ha hkey
    have hknotk : ¬ (cfg.wtype = "kitty") := by rw [ha]; decide
    simp only [open_window, ha, position_window]
    congr 1
    funext r
    rw [if_neg (show ¬ (("app" : String) = "kitty") by decide), if_true,
      if_neg (show ¬ (("app" : String) = "kitty") by decide), if_true]
    by_cases hwc : cfg.window_class.getD "" = ""
    · cases hsp : pySplitWs cfg.command with
      | nil =>
        have : get_window_group_key cfg = none := by
          simp [get_window_group_key, hknotk, ha, hwc, hsp]
        rw [this] at hkey
        exact absurd hkey (by simp)
      | cons wrd rest =>
        have hkey2 : get_window_group_key cfg =
            some ("app", ((pySplitChar '/' wrd).getLast?).getD "") := by
          simp [get_window_group_key, hknotk, ha, hwc, hsp]
        rw [hkey2] at hkey
        have hd : ((pySplitChar '/' wrd).getLast?).getD "" = d := by
          simpa using hkey
        rw [if_pos hwc, if_pos hwc]
        simp only [hsp, hd]
        simp [exceptBind_ok]
    · have hkey2 : get_window_group_key cfg =
          some ("app", cfg.window_class.getD "") := by
        simp [get_window_group_key, hknotk, ha, hwc]
      rw [hkey2] at hkey
      have hd : cfg.window_class.getD "" = d := by simpa using hkey
      rw [if_neg hwc, if_neg hwc]
      simp only [hd]
      simp [exceptBind_ok]

/-- Witness for C9: the concrete kitty entry's group key is
`("kitty", "T1")`, its title. -/
theorem C9_witness :
    cfgT1.wtype = "kitty" ∧ get_window_group_key cfgT1 = some ("kitty", "T1") :=
  ⟨rfl, C9_discriminators_agree.1 cfgT1 rfl⟩

/-! ### C1: per-entry exception isolation in the scheduler -/

theorem process_window_group_append (env : Env) (l1 l2 : List WindowConfig) :
    process_window_group env (l1 ++ l2) =
      process_window_group env l1 ++ process_window_group env l2 := by
  induction l1 with
  | nil => rfl
  | cons c cs ih => simp [process_window_group, ih]

theorem process_window_group_length (env : Env) (ws : List WindowConfig) :
    (process_window_group env ws).length = ws.length := by
  induction ws with
  | nil => rfl
  | cons c cs ih => simp [process_window_group, ih]

/-- Claim C1: if `open_window` raises on one entry, `process_window_group`
catches the exception and records the failure outcome
`(False, title-or-unknown ++ ": " ++ e)` for exactly that entry, while the
outcomes of the earlier and later entries of the same group are computed
unchanged (first conjunct); and every entry of every group contributes
exactly one outcome to the aggregated result, so a failure in one group
never suppresses entries of other groups (second conjunct). -/
theorem C1_exception_isolated_per_entry :
    (∀ (env : Env) (pre : List WindowConfig) (cfg : WindowConfig)
        (post : List WindowConfig) (e : String),
      open_window env cfg = .error e →
      process_window_group env (pre ++ cfg :: post) =
        process_window_group env pre ++
          (false, (cfg.title.getD "unknown") ++ ": " ++ e) ::
            process_window_group env post) ∧
    (∀ (env : Env) (gs : Groups),
      (run_groups env gs).length = (gs.map fun kg => kg.2.length).sum) := by
  constructor
  · intro env pre cfg post e herr
    rw [process_window_group_append]
    simp [process_window_group, handleEntry, herr]
  · intro env gs
    induction gs with
    | nil => rfl
    | cons kg rest ih =>
      simp only [run_groups, List.map_cons, List.flatten_cons, List.length_append,
        List.map, List.sum_cons, process_window_group_length] at ih ⊢
      omega

/-- An environment whose kitty spawn raises. -/
def envSpawnFail : Env :=
  { envTimeout with spawnKitty := fun _ _ => .error "boom" }

/-- Witness for C1 with a one-entry group whose spawn raises. -/
theorem C1_witness :
    open_window envSpawnFail cfgT1 = .error "boom" ∧
    process_window_group envSpawnFail ([] ++ cfgT1 :: []) =
      process_window_group envSpawnFail [] ++
        (false, (cfgT1.title.getD "unknown") ++ ": " ++ "boom") ::
          process_window_group envSpawnFail [] :=
  ⟨by with_unfolding_all decide,
    C1_exception_isolated_per_entry.1 envSpawnFail [] cfgT1 [] "boom"
      (by with_unfolding_all decide)⟩

/-! ### C2: grouping is a total partition -/

theorem addToGroup_flatten_perm (gs : Groups) (k : String × String)
    (cfg : WindowConfig) :
    (((addToGroup gs k cfg).map Prod.snd).flatten).Perm
      ((gs.map Prod.snd).flatten ++ [cfg]) := by
  induction gs with
  | nil => simp [addToGroup]
  | cons hd rest ih =>
    obtain ⟨k', ws⟩ := hd
    by_cases hk : k' = k
    · simp only [addToGroup, if_pos hk, List.map_cons, List.flatten_cons]
      rw [List.append_assoc, List.append_assoc]
      exact List.Perm.append_left ws List.perm_append_comm
    · simp only [addToGroup, if_neg hk, List.map_cons, List.flatten_cons]
      rw [List.append_assoc]
      exact List.Perm.append_left ws ih

theorem addToGroup_keys (gs : Groups) (k : String × String) (cfg : WindowConfig) :
    (addToGroup gs k cfg).map Prod.fst =
      if k ∈ gs.map Prod.fst then gs.map Prod.fst else gs.map Prod.fst ++ [k] := by
  induction gs with
  | nil => simp [addToGroup]
  | cons hd rest ih =>
    obtain ⟨k', ws⟩ := hd
    by_cases hk : k' = k
    · subst hk
      simp [addToGroup]
    · have hne : ¬ (k = k') := fun h => hk h.symm
      by_cases hmem : k ∈ rest.map Prod.fst <;>
        simp [addToGroup, hk, ih, hne, hmem]

theorem mem_addToGroup_strong (gs : Groups) (k : String × String)
    (cfg : WindowConfig) (hnd : (gs.map Prod.fst).Nodup) :
    ∀ kg ∈ addToGroup gs k cfg,
      (kg.1 ≠ k ∧ kg ∈ gs) ∨
      (kg.1 = k ∧ ((k ∉ gs.map Prod.fst ∧ kg.2 = [cfg]) ∨
        (∃ ws, (k, ws) ∈ gs ∧ kg.2 = ws ++ [cfg]))) := by
  induction gs with
  | nil =>
    intro kg hkg
    simp only [addToGroup, List.mem_singleton] at hkg
    subst hkg
    exact Or.inr ⟨rfl, Or.inl ⟨by simp, rfl⟩⟩
  | cons hd rest ih =>
    obtain ⟨k', ws⟩ := hd
    simp only [List.map_cons, List.nodup_cons] at hnd
    intro kg hkg
    by_cases hk : k' = k
    · subst hk
      simp only [addToGroup, eq_self_iff_true, if_true, List.mem_cons] at hkg
      rcases hkg with hkg | hkg
      · subst hkg
        exact Or.inr ⟨rfl, Or.inr ⟨ws, List.mem_cons_self _ _, rfl⟩⟩
      · left
        refine ⟨fun h1 => hnd.1 ?_, List.mem_cons_of_mem _ hkg⟩
        rw [← h1]
        exact List.mem_map_of_mem Prod.fst hkg
    · simp only [addToGroup, if_neg hk, List.mem_cons] at hkg
      rcases hkg with hkg | hkg
      · subst hkg
        exact Or.inl ⟨fun h => hk h, List.mem_cons_self _ _⟩
      · rcases ih hnd.2 kg hkg with ⟨hne, hmem⟩ | ⟨heq, hrest⟩
        · exact Or.inl ⟨hne, List.mem_cons_of_mem _ hmem⟩
        · refine Or.inr ⟨heq, ?_⟩
          rcases hrest with ⟨hnotmem, h2⟩ | ⟨ws', hmem', h2⟩
          · refine Or.inl ⟨?_, h2⟩
            simp only [List.map_cons, List.mem_cons]
            rintro (h | h)
            · exact hk h.symm
            · exact hnotmem h
          · exact Or.inr ⟨ws', List.mem_cons_of_mem _ hmem', h2⟩

/-- Invariant of the grouping loop: after processing `done`, the group keys
are pairwise distinct, every group's window list is exactly the filter of
`done` by its key (so in declaration order), and every processed window's
key is a group key. -/
def GroupsInv (done : List WindowConfig) (gs : Groups) : Prop :=
  (gs.map Prod.fst).Nodup ∧
  (∀ kg ∈ gs, kg.2 =
    done.filter (fun w => decide (get_window_group_key w = some kg.1))) ∧
  (∀ w ∈ done, ∃ k, get_window_group_key w = some k ∧ k ∈ gs.map Prod.fst)

theorem groupsInv_step (done : List WindowConfig) (gs : Groups)
    (cfg : WindowConfig) (k : String × String)
    (hcfg : get_window_group_key cfg = some k) (hinv : GroupsInv done gs) :
    GroupsInv (done ++ [cfg]) (addToGroup gs k cfg) := by
  obtain ⟨hnd, hch, hmem⟩ := hinv
  refine ⟨?_, ?_, ?_⟩
  · rw [addToGroup_keys]
    by_cases hmemk : k ∈ gs.map Prod.fst
    · simpa [hmemk] using hnd
    · rw [if_neg hmemk]
      rw [List.nodup_append]
      refine ⟨hnd, List.nodup_singleton k, fun a ha hmema => ?_⟩
      exact hmemk ((List.mem_singleton.mp hmema) ▸ ha)
  · intro kg hkg
    rcases mem_addToGroup_strong gs k cfg hnd kg hkg with ⟨hne, hmem'⟩ | ⟨heq, hrest⟩
    · rw [hch kg hmem', List.filter_append]
      have hnil :
          List.filter (fun w => decide (get_window_group_key w = some kg.1)) [cfg] = [] := by
        simp only [List.filter, hcfg]
        have : ¬ (some k = some kg.1) := by
          simp only [Option.some.injEq]
          exact fun h => hne h.symm
        simp [this]
      rw [hnil, List.append_nil]
    · rcases hrest with ⟨hnotmem, h2⟩ | ⟨ws, hmemws, h2⟩
      · rw [h2, List.filter_append]
        have hdone :
            done.filter (fun w => decide (get_window_group_key w = some kg.1)) = [] := by
          rw [List.filter_eq_nil_iff]
          intro w hw hdec
          rcases hmem w hw with ⟨k'', hk'', hmemk''⟩
          rw [decide_eq_true_eq, hk'', heq] at hdec
          obtain rfl : k'' = k := by simpa using hdec
          exact hnotmem hmemk''
        have hone :
            List.filter (fun w => decide (get_window_group_key w = some kg.1)) [cfg] =
              [cfg] := by
          simp [List.filter, hcfg, heq]
        rw [hdone, hone, List.nil_append]
      · rw [h2, List.filter_append]
        have hgrp := hch (k, ws) hmemws
        simp only at hgrp
        rw [heq, ← hgrp]
        have hone :
            List.filter (fun w => decide (get_window_group_key w = some k)) [cfg] =
              [cfg] := by
          simp [List.filter, hcfg]
        rw [hone]
  · intro w hw
    rw [List.mem_append] at hw
    rw [addToGroup_keys]
    rcases hw with hw | hw
    · rcases hmem w hw with ⟨k'', hk'', hmemk''⟩
      refine ⟨k'', hk'', ?_⟩
      split <;> simp [hmemk'']
    · obtain rfl : w = cfg := by simpa using hw
      refine ⟨k, hcfg, ?_⟩
      split <;> simp_all

theorem buildGroupsAux_inv (ws : List WindowConfig) :
    ∀ (done : List WindowConfig) (acc gs : Groups),
      GroupsInv done acc → buildGroupsAux acc ws = some gs →
      GroupsInv (done ++ ws) gs := by
  induction ws with
  | nil =>
    intro done acc gs hinv h
    obtain rfl : acc = gs := by simpa [buildGroupsAux] using h
    simpa using hinv
  | cons cfg rest ih =>
    intro done acc gs hinv h
    rw [buildGroupsAux] at h
    cases hk : get_window_group_key cfg with
    | none => rw [hk] at h; exact absurd h (by simp)
    | some k =>
      simp only [hk] at h
      have := ih (done ++ [cfg]) (addToGroup acc k cfg) gs
        (groupsInv_step done acc cfg k hk hinv) h
      simpa [List.append_assoc] using this

theorem buildGroupsAux_flatten (ws : List WindowConfig) :
    ∀ (acc gs : Groups), buildGroupsAux acc ws = some gs →
      ((gs.map Prod.snd).flatten).Perm ((acc.map Prod.snd).flatten ++ ws) := by
  induction ws with
  | nil =>
    intro acc gs h
    obtain rfl : acc = gs := by simpa [buildGroupsAux] using h
    simp
  | cons cfg rest ih =>
    intro acc gs h
    rw [buildGroupsAux] at h
    cases hk : get_window_group_key cfg with
    | none => rw [hk] at h; exact absurd h (by simp)
    | some k =>
      simp only [hk] at h
      have h1 := ih _ gs h
      have h2 := (addToGroup_flatten_perm acc k cfg).append_right rest
      have h3 := h1.trans h2
      simpa using h3

/-- Claim C2: when every entry's group key computes (no `IndexError`),
grouping is a total partition of the window list: the concatenation of all
groups' windows is a permutation of the input (no entry dropped or
duplicated), each group's window list is exactly the input filtered by its
key — so entries with identical keys land in the same group and keep the
template's declaration order — and group keys are pairwise distinct, so no
entry belongs to two groups. -/
theorem C2_grouping_partition :
    ∀ (ws : List WindowConfig) (gs : Groups), buildGroups ws = some gs →
      ((gs.map Prod.snd).flatten).Perm ws ∧
      (∀ kg ∈ gs, kg.2 =
        ws.filter (fun w => decide (get_window_group_key w = some kg.1))) ∧
      (gs.map Prod.fst).Nodup := by
  intro ws gs h
  have hper := buildGroupsAux_flatten ws [] gs h
  have hinv : GroupsInv ([] ++ ws) gs :=
    buildGroupsAux_inv ws [] [] gs ⟨List.nodup_nil, by simp, by simp⟩ h
  exact ⟨by simpa using hper, by simpa using hinv.2.1, hinv.1⟩

/-- A three-entry template: two kitty windows sharing the title `"T"` and
one app window classed by its executable basename. -/
def wsC2 : List WindowConfig :=
  [ { wtype := "kitty", command := "htop", title := some "T" },
    { wtype := "kitty", command := "ls", title := some "T" },
    { wtype := "app", command := "/usr/bin/firefox --new-window" } ]

/-- Witness for C2 on the concrete three-entry template: the two same-title
kitty entries share one group, the app entry gets its own. -/
theorem C2_witness :
    buildGroups wsC2 =
      some [(("kitty", "T"),
              [ { wtype := "kitty", command := "htop", title := some "T" },
                { wtype := "kitty", command := "ls", title := some "T" } ]),
            (("app", "firefox"),
              [ { wtype := "app", command := "/usr/bin/firefox --new-window" } ])] ∧
    (((buildGroups wsC2).getD []).map Prod.snd).flatten.Perm wsC2 := by
  refine ⟨by decide, ?_⟩
  have h := (C2_grouping_partition wsC2 ((buildGroups wsC2).getD []) (by decide)).1
  exact h

end Workspace
